import Mathlib

/-!
Shallow embedding of the `nmcp-raycast` repository's in-memory voxel world
store and of the JavaScript callers that drive it.

The native core (`prismarine-world-lite`, a Rust N-API addon) ships only as
a compiled `.node` binary; the repository contains its TypeScript
declaration file (`src/unnamed/part_002`) and the JavaScript programs that
call it.  Definitions in the `Core` namespace are therefore modelled from
the specification (`spec.md`), section by section, with the declaration
file taken as the authority wherever the two disagree (the declaration is
generated from the implementation).  Definitions in the `Callers` and
`ProxyModel` namespaces are translated directly from the JavaScript source
files, which are present in the repository.

Machine integers are modelled as `Nat` (the packed 64-bit words of the
paletted containers are plain naturals; every read masks with the entry
mask, so no word-level bound is needed).  The raycaster's floating-point
arithmetic is modelled over `ℚ`; all inputs appearing in the claims are
dyadic rationals on which binary floating point is exact.
-/

namespace Core

/-! ### List helpers (library-independent, proved by induction) -/

/-- getD after set at the same in-bounds index returns the written value. -/
theorem getD_set_self {α : Type} (d : α) :
    ∀ (l : List α) (i : Nat) (a : α), i < l.length → (l.set i a).getD i d = a := by
  intro l
  induction l with
  | nil => intro i a h; simp at h
  | cons x xs ih =>
    intro i a h
    cases i with
    | zero => rfl
    | succ j =>
      simp only [List.set, List.getD, List.getElem?_cons_succ]
      have hj : j < xs.length := by simpa using h
      simpa [List.getD] using ih j a hj

/-- getD of a replicate below the length. -/
theorem getD_replicate {α : Type} (d x : α) :
    ∀ (n i : Nat), i < n → (List.replicate n x).getD i d = x := by
  intro n
  induction n with
  | zero => intro i h; omega
  | succ m ih =>
    intro i h
    cases i with
    | zero => rfl
    | succ j =>
      simp only [List.replicate]
      have hj : j < m := by omega
      exact ih j hj

/-- getD of a map over `List.range`. -/
theorem getD_map_range {α : Type} (d : α) (f : Nat → α) :
    ∀ (n i : Nat), i < n → ((List.range n).map f).getD i d = f i := by
  intro n i h
  have h1 : ((List.range n).map f)[i]? = some (f i) := by
    rw [List.getElem?_map]
    simp [List.getElem?_range h]
  simp [List.getD, List.get?_eq_getElem?, h1]

/-- getD of an append at exactly the length of the prefix. -/
theorem getD_append_length {α : Type} (d : α) :
    ∀ (l : List α) (a : α), (l ++ [a]).getD l.length d = a := by
  intro l
  induction l with
  | nil => intro a; rfl
  | cons x xs ih => intro a; exact ih a

/-! ### Bit packing (spec section 4.1, "Bit packing (shared)")

Modelled from the spec: given `bitsPerEntry = b > 0`,
`entriesPerWord = floor (64 / b)`, `mask = (1 <<< b) - 1`; for entry `i`,
`wordIdx = i / entriesPerWord` and `bitOffset = (i % entriesPerWord) * b`.
A read is `(data[wordIdx] >>> bitOffset) &&& mask`.  The spec's write
"clear then OR" on a 64-bit word is rendered on `Nat` by subtracting the
old field before adding the new one (identical on every 64-bit word, and
`Nat` has no finite complement). -/

def entriesPerWord (b : Nat) : Nat := 64 / b

def entryMask (b : Nat) : Nat := (1 <<< b) - 1

/-- Number of packed words for `size` entries at width `b` (spec:
`data.length = ceil (size / entriesPerWord)`). -/
def wordsFor (size b : Nat) : Nat := (size + entriesPerWord b - 1) / entriesPerWord b

/-- Read the `b`-bit field of word `x` at bit offset `o`. -/
def readWord (x o b : Nat) : Nat := (x >>> o) &&& entryMask b

/-- Replace the `b`-bit field of word `x` at bit offset `o` by `v`. -/
def writeWord (x o b v : Nat) : Nat :=
  x - ((x >>> o) &&& entryMask b) <<< o + (v &&& entryMask b) <<< o

theorem entryMask_eq (b : Nat) : entryMask b = 2 ^ b - 1 := by
  simp [entryMask, Nat.shiftLeft_eq]

theorem and_mask_eq_mod (x b : Nat) : x &&& entryMask b = x % 2 ^ b := by
  rw [entryMask_eq]
  exact Nat.and_pow_two_sub_one_eq_mod x b

theorem readWord_eq (x o b : Nat) : readWord x o b = x / 2 ^ o % 2 ^ b := by
  simp [readWord, and_mask_eq_mod, Nat.shiftRight_eq_div_pow]

theorem writeWord_eq (x o b v : Nat) :
    writeWord x o b v = x - x / 2 ^ o % 2 ^ b * 2 ^ o + v % 2 ^ b * 2 ^ o := by
  simp [writeWord, and_mask_eq_mod, Nat.shiftRight_eq_div_pow, Nat.shiftLeft_eq]

/-- Decomposition of a word write: low bits kept, field replaced, high part kept. -/
theorem writeWord_decomp (x o b v : Nat) :
    writeWord x o b v =
      2 ^ o * (2 ^ b * (x / 2 ^ o / 2 ^ b) + v % 2 ^ b) + x % 2 ^ o := by
  rw [writeWord_eq]
  have hq : 2 ^ o * (x / 2 ^ o) + x % 2 ^ o = x := Nat.div_add_mod x (2 ^ o)
  have hs : 2 ^ b * (x / 2 ^ o / 2 ^ b) + x / 2 ^ o % 2 ^ b = x / 2 ^ o :=
    Nat.div_add_mod (x / 2 ^ o) (2 ^ b)
  have hle : x / 2 ^ o % 2 ^ b * 2 ^ o ≤ x := by
    calc x / 2 ^ o % 2 ^ b * 2 ^ o ≤ x / 2 ^ o * 2 ^ o :=
          Nat.mul_le_mul_right _ (Nat.mod_le _ _)
      _ ≤ x := by rw [Nat.mul_comm]; omega
  have hsub : x - x / 2 ^ o % 2 ^ b * 2 ^ o =
      2 ^ o * (2 ^ b * (x / 2 ^ o / 2 ^ b)) + x % 2 ^ o := by
    have : x = 2 ^ o * (2 ^ b * (x / 2 ^ o / 2 ^ b)) + x % 2 ^ o
        + x / 2 ^ o % 2 ^ b * 2 ^ o := by
      calc x = 2 ^ o * (x / 2 ^ o) + x % 2 ^ o := hq.symm
        _ = 2 ^ o * (2 ^ b * (x / 2 ^ o / 2 ^ b) + x / 2 ^ o % 2 ^ b) + x % 2 ^ o := by
              rw [hs]
        _ = 2 ^ o * (2 ^ b * (x / 2 ^ o / 2 ^ b)) + x % 2 ^ o
            + x / 2 ^ o % 2 ^ b * 2 ^ o := by ring
    omega
  rw [hsub]; ring

/-- Reading back the field just written returns the (masked) value. -/
theorem readWord_writeWord_self (x o b v : Nat) :
    readWord (writeWord x o b v) o b = v % 2 ^ b := by
  rw [readWord_eq, writeWord_decomp]
  have ho : 0 < 2 ^ o := Nat.two_pow_pos o
  have hb : 0 < 2 ^ b := Nat.two_pow_pos b
  have h0 : x % 2 ^ o / 2 ^ o = 0 := Nat.div_eq_of_lt (Nat.mod_lt x ho)
  rw [Nat.mul_add_div ho, h0, Nat.add_zero, Nat.mul_add_mod]
  exact Nat.mod_eq_of_lt (Nat.mod_lt v hb)

/-! ### Packed entry arrays over a list of words -/

/-- Read entry `i` of the packed array `data` at width `b`. -/
def readEntry (b : Nat) (data : List Nat) (i : Nat) : Nat :=
  readWord (data.getD (i / entriesPerWord b) 0) (i % entriesPerWord b * b) b

/-- Write entry `i` of the packed array `data` at width `b`. -/
def writeEntry (b : Nat) (data : List Nat) (i v : Nat) : Nat :=
  writeWord (data.getD (i / entriesPerWord b) 0) (i % entriesPerWord b * b) b v

/-- Packed array with entry `i` replaced. -/
def setEntry (b : Nat) (data : List Nat) (i v : Nat) : List Nat :=
  data.set (i / entriesPerWord b) (writeEntry b data i v)

theorem length_setEntry (b : Nat) (data : List Nat) (i v : Nat) :
    (setEntry b data i v).length = data.length := by
  simp [setEntry]

/-- Reading entry `i` right after writing it returns the masked value. -/
theorem readEntry_setEntry_self (b : Nat) (data : List Nat) (i v : Nat)
    (hw : i / entriesPerWord b < data.length) :
    readEntry b (setEntry b data i v) i = v % 2 ^ b := by
  unfold readEntry setEntry
  rw [getD_set_self 0 data _ _ hw]
  exact readWord_writeWord_self _ _ _ _

/-- If `i < size` then its word index is inside the packed array. -/
theorem wordIdx_lt_wordsFor (size b i : Nat) (hb : 0 < b) (hb64 : b ≤ 64)
    (hi : i < size) : i / entriesPerWord b < wordsFor size b := by
  have hepw : 0 < entriesPerWord b := Nat.le_div_iff_mul_le hb |>.mpr (by omega)
  unfold wordsFor
  rw [Nat.div_lt_iff_lt_mul hepw, Nat.mul_comm]
  have hsize : size ≤ entriesPerWord b
      * ((size + entriesPerWord b - 1) / entriesPerWord b) := by
    have hd := Nat.div_add_mod (size + entriesPerWord b - 1) (entriesPerWord b)
    have hm := Nat.mod_lt (size + entriesPerWord b - 1) hepw
    generalize entriesPerWord b
      * ((size + entriesPerWord b - 1) / entriesPerWord b) = P at hd ⊢
    omega
  exact Nat.lt_of_lt_of_le hi hsize

/-- Build a packed word holding `n` consecutive entries `f base`, ...,
`f (base + n - 1)`, entry 0 in the low bits. -/
def packWordAux (b : Nat) (f : Nat → Nat) (base : Nat) : Nat → Nat
  | 0 => 0
  | n + 1 => (f base &&& entryMask b) + packWordAux b f (base + 1) n * 2 ^ b

/-- Build the whole packed array for `size` entries given by `f`. -/
def packEntries (size b : Nat) (f : Nat → Nat) : List Nat :=
  (List.range (wordsFor size b)).map
    (fun w => packWordAux b f (w * entriesPerWord b) (entriesPerWord b))

theorem length_packEntries (size b : Nat) (f : Nat → Nat) :
    (packEntries size b f).length = wordsFor size b := by
  simp [packEntries]

theorem packWordAux_read (b : Nat) (f : Nat → Nat) :
    ∀ (n s base : Nat), s < n →
      packWordAux b f base n / 2 ^ (s * b) % 2 ^ b = f (base + s) % 2 ^ b := by
  intro n
  induction n with
  | zero => intro s base h; omega
  | succ m ih =>
    intro s base h
    cases s with
    | zero =>
      simp only [packWordAux, Nat.zero_mul, Nat.pow_zero, Nat.div_one]
      rw [Nat.add_mul_mod_self_right, and_mask_eq_mod]
      exact Nat.mod_eq_of_lt (Nat.mod_lt _ (Nat.two_pow_pos b))
    | succ t =>
      simp only [packWordAux]
      have hb : 0 < 2 ^ b := Nat.two_pow_pos b
      have hmask : f base &&& entryMask b < 2 ^ b := by
        rw [and_mask_eq_mod]; exact Nat.mod_lt _ hb
      have hpow : 2 ^ ((t + 1) * b) = 2 ^ b * 2 ^ (t * b) := by
        rw [← Nat.pow_add]; ring_nf
      rw [hpow, ← Nat.div_div_eq_div_mul]
      have hdiv : ((f base &&& entryMask b) + packWordAux b f (base + 1) m * 2 ^ b)
          / 2 ^ b = packWordAux b f (base + 1) m := by
        rw [Nat.add_mul_div_right _ _ hb, Nat.div_eq_of_lt hmask, Nat.zero_add]
      rw [hdiv]
      have ht : t < m := by omega
      have harg : base + 1 + t = base + (t + 1) := by omega
      rw [ih t (base + 1) ht, harg]

/-- Reading any in-range entry of a packed array recovers the source. -/
theorem readEntry_packEntries (size b : Nat) (f : Nat → Nat) (i : Nat)
    (hb : 0 < b) (hb64 : b ≤ 64) (hi : i < size) :
    readEntry b (packEntries size b f) i = f i % 2 ^ b := by
  have hepw : 0 < entriesPerWord b := Nat.le_div_iff_mul_le hb |>.mpr (by omega)
  have hwlt : i / entriesPerWord b < wordsFor size b :=
    wordIdx_lt_wordsFor size b i hb hb64 hi
  unfold readEntry packEntries
  rw [getD_map_range 0 _ _ _ hwlt, readWord_eq]
  have hs : i % entriesPerWord b < entriesPerWord b := Nat.mod_lt i hepw
  have hread := packWordAux_read b f (entriesPerWord b) (i % entriesPerWord b)
    (i / entriesPerWord b * entriesPerWord b) hs
  have harg : i / entriesPerWord b * entriesPerWord b + i % entriesPerWord b = i := by
    rw [Nat.mul_comm]
    exact Nat.div_add_mod i (entriesPerWord b)
  rw [hread, harg]

/-! ### PalettedContainer (spec section 4.1)

Modelled from the spec: a bit-packed array with a resizable palette in one
of the tagged variants Single / Indirect / Direct (spec section 9,
"Polymorphism over palette forms").  Two configurations: BlockStates
(4096 entries, indirect 4..8 bits, direct transition at 9 bits, direct
width 15) and Biomes (64 entries, indirect 1..3 bits, direct transition at
4 bits, direct width 6) — spec sections 3 and 6. -/

structure ContainerCfg where
  size : Nat
  minIndirectBits : Nat
  directThreshold : Nat
  directBits : Nat
deriving DecidableEq

def blockCfg : ContainerCfg :=
  { size := 4096, minIndirectBits := 4, directThreshold := 9, directBits := 15 }

def biomeCfg : ContainerCfg :=
  { size := 64, minIndirectBits := 1, directThreshold := 4, directBits := 6 }

inductive Palette where
  | single (v : Nat)
  | indirect (vals : List Nat)
  | direct
deriving DecidableEq

structure PalettedContainer where
  bitsPerEntry : Nat
  palette : Palette
  data : List Nat
deriving DecidableEq

/-- Modelled from the spec (section 4.1, `get`): Single returns the palette
value, Indirect decodes a palette index, Direct decodes the globalId. -/
def PalettedContainer.get (c : PalettedContainer) (i : Nat) : Nat :=
  match c.palette with
  | .single v => v
  | .indirect vals => vals.getD (readEntry c.bitsPerEntry c.data i) 0
  | .direct => readEntry c.bitsPerEntry c.data i

/-- Position of `w` in the palette vector, if present. -/
def paletteIndexOf (vals : List Nat) (w : Nat) : Option Nat :=
  match vals with
  | [] => none
  | v :: rest => if v = w then some 0 else (paletteIndexOf rest w).map (· + 1)

theorem paletteIndexOf_spec :
    ∀ (vals : List Nat) (w i : Nat), paletteIndexOf vals w = some i →
      i < vals.length ∧ vals.getD i 0 = w := by
  intro vals
  induction vals with
  | nil => intro w i h; exact Option.noConfusion h
  | cons v rest ih =>
    intro w i h
    simp only [paletteIndexOf] at h
    by_cases hv : v = w
    · rw [if_pos hv] at h
      cases h
      exact ⟨by simp, hv⟩
    · rw [if_neg hv] at h
      cases hrec : paletteIndexOf rest w with
      | none => rw [hrec] at h; simp at h
      | some j =>
        rw [hrec] at h
        have h' : j + 1 = i := by simpa using h
        obtain ⟨hj, hgd⟩ := ih w j hrec
        subst h'
        exact ⟨by simpa using hj, by simpa [List.getD] using hgd⟩

/-- Modelled from the spec (section 4.1, grow policy): the new width is the
smallest `b` with `2 ^ b ≥ newLen` and `b ≥ minIndirectBits`. -/
def growBits (cfg : ContainerCfg) (newLen : Nat) : Nat :=
  max cfg.minIndirectBits (Nat.clog 2 newLen)

/-- Modelled from the spec (section 4.1, `set` and palette transitions):
Single either no-ops or rebuilds as a two-entry indirect palette; Indirect
packs an existing index, appends, grows to a wider indirect palette, or
converts to direct at the direct width; Direct packs the globalId. -/
def PalettedContainer.set (cfg : ContainerCfg) (c : PalettedContainer)
    (i w : Nat) : PalettedContainer :=
  match c.palette with
  | .single v =>
    if w = v then c
    else
      let b := max cfg.minIndirectBits 1
      let data0 := List.replicate (wordsFor cfg.size b) 0
      { bitsPerEntry := b, palette := .indirect [v, w], data := setEntry b data0 i 1 }
  | .indirect vals =>
    match paletteIndexOf vals w with
    | some idx => { c with data := setEntry c.bitsPerEntry c.data i idx }
    | none =>
      let newVals := vals ++ [w]
      if newVals.length ≤ 2 ^ c.bitsPerEntry then
        { c with palette := .indirect newVals,
                 data := setEntry c.bitsPerEntry c.data i vals.length }
      else
        let b2 := growBits cfg newVals.length
        if b2 < cfg.directThreshold then
          let repacked := packEntries cfg.size b2
            (fun j => readEntry c.bitsPerEntry c.data j)
          { bitsPerEntry := b2, palette := .indirect newVals,
            data := setEntry b2 repacked i vals.length }
        else
          let converted := packEntries cfg.size cfg.directBits
            (fun j => vals.getD (readEntry c.bitsPerEntry c.data j) 0)
          { bitsPerEntry := cfg.directBits, palette := .direct,
            data := setEntry cfg.directBits converted i w }
  | .direct => { c with data := setEntry c.bitsPerEntry c.data i w }

/-- Configuration sanity (holds for both profiles by `decide`). -/
def cfgWF (cfg : ContainerCfg) : Bool :=
  decide (0 < cfg.minIndirectBits) && decide (cfg.minIndirectBits < cfg.directThreshold)
    && decide (cfg.directThreshold ≤ cfg.directBits) && decide (cfg.directBits ≤ 64)
    && decide (0 < cfg.size)

/-- Container invariants (spec section 4.1 invariants): Single has width 0;
Indirect has a positive width below the direct threshold, a palette that
fits the width, and a full-length word array; Direct has width at least the
direct width (spec section 2: direct fallback at 15+ bits) and a
full-length word array. -/
def containerWF (cfg : ContainerCfg) (c : PalettedContainer) : Bool :=
  match c.palette with
  | .single _ => c.bitsPerEntry == 0
  | .indirect vals =>
    decide (0 < c.bitsPerEntry) && decide (c.bitsPerEntry < cfg.directThreshold)
      && decide (vals.length ≤ 2 ^ c.bitsPerEntry)
      && (c.data.length == wordsFor cfg.size c.bitsPerEntry)
  | .direct =>
    decide (cfg.directBits ≤ c.bitsPerEntry) && decide (c.bitsPerEntry ≤ 64)
      && (c.data.length == wordsFor cfg.size c.bitsPerEntry)

/-- Spec section 8, invariant 1: `P.get i` after `P.set i v` equals `v`,
for any well-formed container, in-range index, and id within the direct
width. -/
theorem PalettedContainer.get_set (cfg : ContainerCfg) (c : PalettedContainer)
    (i v : Nat) (hcfg : cfgWF cfg = true) (hwf : containerWF cfg c = true)
    (hi : i < cfg.size) (hv : v < 2 ^ cfg.directBits) :
    (c.set cfg i v).get i = v := by
  simp only [cfgWF, Bool.and_eq_true, decide_eq_true_eq] at hcfg
  obtain ⟨⟨⟨⟨hmin, hminthr⟩, hthrdir⟩, hdir64⟩, hsizepos⟩ := hcfg
  cases hpal : c.palette with
  | single v0 =>
    by_cases hw : v = v0
    · simp [PalettedContainer.set, PalettedContainer.get, hpal, hw]
    · simp only [PalettedContainer.set, hpal, if_neg hw]
      set b := max cfg.minIndirectBits 1 with hbdef
      have hb : 0 < b := by omega
      have hb64 : b ≤ 64 := by omega
      have hwlt : i / entriesPerWord b < wordsFor cfg.size b :=
        wordIdx_lt_wordsFor cfg.size b i hb hb64 hi
      simp only [PalettedContainer.get]
      rw [readEntry_setEntry_self b _ i 1 (by simpa using hwlt)]
      have h2 : 1 < 2 ^ b := Nat.one_lt_two_pow_iff.mpr (by omega)
      rw [Nat.mod_eq_of_lt h2]
      rfl
  | indirect vals =>
    have hwf' := hwf
    simp only [containerWF, hpal, Bool.and_eq_true, decide_eq_true_eq,
      beq_iff_eq] at hwf'
    obtain ⟨⟨⟨hbpos, hbthr⟩, hpallen⟩, hdlen⟩ := hwf'
    have hb64 : c.bitsPerEntry ≤ 64 := by omega
    cases hfind : paletteIndexOf vals v with
    | some idx =>
      obtain ⟨hidxlt, hidxval⟩ := paletteIndexOf_spec vals v idx hfind
      simp only [PalettedContainer.set, hpal, hfind, PalettedContainer.get]
      have hwlt : i / entriesPerWord c.bitsPerEntry
          < wordsFor cfg.size c.bitsPerEntry :=
        wordIdx_lt_wordsFor cfg.size c.bitsPerEntry i hbpos hb64 hi
      rw [readEntry_setEntry_self _ _ _ _ (by rw [hdlen]; exact hwlt)]
      have hidx2 : idx < 2 ^ c.bitsPerEntry := Nat.lt_of_lt_of_le hidxlt hpallen
      rw [Nat.mod_eq_of_lt hidx2]
      exact hidxval
    | none =>
      simp only [PalettedContainer.set, hpal, hfind]
      by_cases hfit : (vals ++ [v]).length ≤ 2 ^ c.bitsPerEntry
      · simp only [if_pos hfit, PalettedContainer.get]
        have hwlt : i / entriesPerWord c.bitsPerEntry
            < wordsFor cfg.size c.bitsPerEntry :=
          wordIdx_lt_wordsFor cfg.size c.bitsPerEntry i hbpos hb64 hi
        rw [readEntry_setEntry_self _ _ _ _ (by rw [hdlen]; exact hwlt)]
        have hlen2 : vals.length < 2 ^ c.bitsPerEntry := by
          simp only [List.length_append, List.length_cons, List.length_nil] at hfit
          omega
        rw [Nat.mod_eq_of_lt hlen2]
        exact getD_append_length 0 vals v
      · simp only [if_neg hfit]
        set b2 := growBits cfg (vals ++ [v]).length with hb2def
        have hb2pos : 0 < b2 := by
          have : cfg.minIndirectBits ≤ b2 := le_max_left _ _
          omega
        have hfits2 : (vals ++ [v]).length ≤ 2 ^ b2 := by
          have h1 : (vals ++ [v]).length ≤ 2 ^ Nat.clog 2 (vals ++ [v]).length :=
            Nat.le_pow_clog (by omega) _
          have h2 : Nat.clog 2 (vals ++ [v]).length ≤ b2 := le_max_right _ _
          exact Nat.le_trans h1 (Nat.pow_le_pow_right (by omega) h2)
        have hlenval : vals.length < 2 ^ b2 := by
          simp only [List.length_append, List.length_cons, List.length_nil] at hfits2
          omega
        by_cases hb2thr : b2 < cfg.directThreshold
        · simp only [if_pos hb2thr, PalettedContainer.get]
          have hb264 : b2 ≤ 64 := by omega
          have hwlt : i / entriesPerWord b2 < wordsFor cfg.size b2 :=
            wordIdx_lt_wordsFor cfg.size b2 i hb2pos hb264 hi
          rw [readEntry_setEntry_self _ _ _ _
            (by rw [length_packEntries]; exact hwlt)]
          rw [Nat.mod_eq_of_lt hlenval]
          exact getD_append_length 0 vals v
        · simp only [if_neg hb2thr, PalettedContainer.get]
          have hdbpos : 0 < cfg.directBits := by omega
          have hwlt : i / entriesPerWord cfg.directBits
              < wordsFor cfg.size cfg.directBits :=
            wordIdx_lt_wordsFor cfg.size cfg.directBits i hdbpos hdir64 hi
          rw [readEntry_setEntry_self _ _ _ _
            (by rw [length_packEntries]; exact hwlt)]
          exact Nat.mod_eq_of_lt hv
  | direct =>
    have hwf' := hwf
    simp only [containerWF, hpal, Bool.and_eq_true, decide_eq_true_eq,
      beq_iff_eq] at hwf'
    obtain ⟨⟨hbge, hb64⟩, hdlen⟩ := hwf'
    have hbpos : 0 < c.bitsPerEntry := by omega
    simp only [PalettedContainer.set, hpal, PalettedContainer.get]
    have hwlt : i / entriesPerWord c.bitsPerEntry
        < wordsFor cfg.size c.bitsPerEntry :=
      wordIdx_lt_wordsFor cfg.size c.bitsPerEntry i hbpos hb64 hi
    rw [readEntry_setEntry_self _ _ _ _ (by rw [hdlen]; exact hwlt)]
    have hvb : v < 2 ^ c.bitsPerEntry :=
      Nat.lt_of_lt_of_le hv (Nat.pow_le_pow_right (by omega) hbge)
    exact Nat.mod_eq_of_lt hvb

/-! ### Section, Column, World (spec sections 3 and 4.2-4.4)

Modelled from the spec with the default MC 1.21.1 profile
(`minY = -64`, `sectionCount = 24`), the profile used by every caller in
the repository (`new World()` / `World.withVersion("1.21.1")`). -/

def minY : Int := -64

def sectionCount : Nat := 24

structure ChunkSection where
  blocks : PalettedContainer
  biomes : PalettedContainer
  blockLight : Option (List Nat)
  skyLight : Option (List Nat)
  solidCount : Nat
deriving DecidableEq

/-- A freshly materialized all-air section (spec section 4.3). -/
def emptySection : ChunkSection :=
  { blocks := { bitsPerEntry := 0, palette := .single 0, data := [] },
    biomes := { bitsPerEntry := 0, palette := .single 0, data := [] },
    blockLight := none, skyLight := none, solidCount := 0 }

structure Column where
  cx : Int
  cz : Int
  sections : List (Option ChunkSection)
deriving DecidableEq

structure World where
  columns : List ((Int × Int) × Column)
deriving DecidableEq

def World.empty : World := { columns := [] }

def lookupColumn : List ((Int × Int) × Column) → Int → Int → Option Column
  | [], _, _ => none
  | (k, col) :: rest, cx, cz =>
    if k = (cx, cz) then some col else lookupColumn rest cx cz

def updateColumn (w : World) (cx cz : Int) (col : Column) : World :=
  { columns := w.columns.map (fun p => if p.1 = (cx, cz) then ((cx, cz), col) else p) }

/-- Linear index of a block within a section (spec section 3:
`((ly*16)+lz)*16 + lx`). -/
def blockIndex (lx ly lz : Nat) : Nat := ((ly * 16) + lz) * 16 + lx

/-- Linear index of a biome cell within a section (spec section 3:
`((by*4)+bz)*4 + bx`). -/
def biomeIndex (bx bby bz : Nat) : Nat := ((bby * 4) + bz) * 4 + bx

/-- Whether world coordinate `y` is inside the vertical range. -/
def yInRange (y : Int) : Prop := minY ≤ y ∧ y < minY + 16 * (sectionCount : Int)

instance (y : Int) : Decidable (yInRange y) := by
  unfold yInRange; infer_instance

/-- Modelled from the spec (section 4.4): 0 when the column or section is
not loaded or `y` is out of range. -/
def World.getBlockStateId (w : World) (x y z : Int) : Nat :=
  match lookupColumn w.columns (x / 16) (z / 16) with
  | none => 0
  | some col =>
    if yInRange y then
      let sy := (y - minY).toNat / 16
      match col.sections.getD sy none with
      | none => 0
      | some s =>
        s.blocks.get (blockIndex (x % 16).toNat ((y - minY).toNat % 16) (z % 16).toNat)
    else 0

/-- Modelled from the spec (section 4.4): biome of the 4x4x4 cell, 0 when
not loaded or out of range. -/
def World.getBiomeId (w : World) (x y z : Int) : Nat :=
  match lookupColumn w.columns (x / 16) (z / 16) with
  | none => 0
  | some col =>
    if yInRange y then
      let sy := (y - minY).toNat / 16
      match col.sections.getD sy none with
      | none => 0
      | some s =>
        s.biomes.get
          (biomeIndex ((x % 16).toNat / 4) ((y - minY).toNat % 16 / 4) ((z % 16).toNat / 4))
    else 0

/-- Nibble array addressing (spec section 4.2). -/
def nibbleGet (arr : List Nat) (i : Nat) : Nat :=
  let byte := arr.getD (i / 2) 0
  if i % 2 = 0 then byte &&& 0xF else (byte >>> 4) &&& 0xF

/-- Sky light at a coordinate; 15 (the spec section 4.2 default) when the
column, section, or light array is absent. -/
def skyLightAt (w : World) (x y z : Int) : Nat :=
  match lookupColumn w.columns (x / 16) (z / 16) with
  | none => 15
  | some col =>
    if yInRange y then
      let sy := (y - minY).toNat / 16
      match col.sections.getD sy none with
      | none => 15
      | some s =>
        match s.skyLight with
        | none => 15
        | some arr =>
          nibbleGet arr (blockIndex (x % 16).toNat ((y - minY).toNat % 16) (z % 16).toNat)
    else 15

/-- The `BlockInfo` record of the declaration file (src/unnamed/part_002
lines 11-21); the block-light field is named `light` there. -/
structure BlockInfo where
  stateId : Nat
  light : Nat
  skyLight : Nat
  biomeId : Nat
deriving DecidableEq

/-- Modelled from the spec (section 4.4) and the declaration file: `nil`
when the column is not loaded, otherwise state id, light levels, and biome.
The `light` field follows the declaration file (src/unnamed/part_002 lines
15-17): "The block light level (0-15). Placeholder, currently always 15."
— which overrides the spec's section 4.2 default of 0 for block light. -/
def World.getBlock (w : World) (x y z : Int) : Option BlockInfo :=
  match lookupColumn w.columns (x / 16) (z / 16) with
  | none => none
  | some _ =>
    some { stateId := w.getBlockStateId x y z, light := 15,
           skyLight := skyLightAt w x y z, biomeId := w.getBiomeId x y z }

inductive WorldError where
  | NotLoaded
  | OutOfRange
deriving DecidableEq

/-- Write one block entry of a section, maintaining `solidCount`
(spec section 4.2). -/
def sectionWrite (s : ChunkSection) (idx v : Nat) : ChunkSection :=
  let prev := s.blocks.get idx
  { s with blocks := s.blocks.set blockCfg idx v,
           solidCount := s.solidCount - (if prev ≠ 0 then 1 else 0)
             + (if v ≠ 0 then 1 else 0) }

/-- Modelled from the spec (sections 4.3-4.4): `NotLoaded` when the column
is absent, `OutOfRange` when `y` is outside the vertical bounds; a write
into a nil section materializes it unless the value is 0 (no-op). -/
def World.setBlockStateId (w : World) (x y z : Int) (v : Nat) :
    Except WorldError World :=
  match lookupColumn w.columns (x / 16) (z / 16) with
  | none => .error .NotLoaded
  | some col =>
    if yInRange y then
      let sy := (y - minY).toNat / 16
      let idx := blockIndex (x % 16).toNat ((y - minY).toNat % 16) (z % 16).toNat
      match col.sections.getD sy none with
      | none =>
        if v = 0 then .ok w
        else
          .ok (updateColumn w (x / 16) (z / 16)
            { col with sections := col.sections.set sy (some (sectionWrite emptySection idx v)) })
      | some s =>
        .ok (updateColumn w (x / 16) (z / 16)
          { col with sections := col.sections.set sy (some (sectionWrite s idx v)) })
    else .error .OutOfRange

/-- Modelled from the spec (section 4.4): removes if present; idempotent. -/
def World.unloadColumn (w : World) (cx cz : Int) : World :=
  { columns := w.columns.filter (fun p => decide (p.1 ≠ (cx, cz))) }

/-- Little-endian bytes of an unsigned 32-bit value (spec section 6). -/
def le32 (v : Nat) : List Nat :=
  [v % 256, v / 256 % 256, v / 65536 % 256, v / 16777216 % 256]

/-- Concatenation `f 0 ++ f 1 ++ ... ++ f (n-1)`. -/
def buildBytes (f : Nat → List Nat) : Nat → List Nat
  | 0 => []
  | n + 1 => buildBytes f n ++ f n

/-- Modelled from the spec (sections 4.4 and 6) and the declaration file:
16384 bytes of 4096 little-endian u32 state ids in linear index order, or
`nil` when the chunk or section is not loaded or `sy` is outside
`[0, sectionCount)`. -/
def World.exportSectionStates (w : World) (cx cz sy : Int) : Option (List Nat) :=
  match lookupColumn w.columns cx cz with
  | none => none
  | some col =>
    if 0 ≤ sy ∧ sy < (sectionCount : Int) then
      match col.sections.getD sy.toNat none with
      | none => none
      | some s => some (buildBytes (fun i => le32 (s.blocks.get i)) 4096)
    else none

def World.getLoadedChunks (w : World) : List (Int × Int) := w.columns.map (·.1)

/-! ### ChunkParser (spec sections 4.5 and 6)

Modelled from the spec: the buffer is the concatenation of `sectionCount`
sections, each `i16 be solidCount`, a block PalettedContainer, and a biome
PalettedContainer; containers are `u8 bpe`, an optional varint palette, a
varint `dataLen`, and `dataLen` big-endian 64-bit words.  Malformed input
(truncated, bad palette, unsupported bpe, wrong data length) is a
`ParseError`. -/

inductive ParseError where
  | truncated
  | badPalette
  | unsupportedBpe
  | badDataLength
deriving DecidableEq

abbrev Bytes := List Nat

def readU8 : Bytes → Except ParseError (Nat × Bytes)
  | [] => .error .truncated
  | b :: rest => .ok (b, rest)

def readU16be (bs : Bytes) : Except ParseError (Nat × Bytes) := do
  let (b0, bs) ← readU8 bs
  let (b1, bs) ← readU8 bs
  .ok (b0 * 256 + b1, bs)

/-- LEB128-style unsigned varint, at most 5 bytes (spec section 6). -/
def readVarintAux : Nat → Bytes → Except ParseError (Nat × Bytes)
  | 0, _ => .error .truncated
  | fuel + 1, bs => do
    let (b, bs) ← readU8 bs
    if b < 128 then .ok (b, bs)
    else do
      let (v, bs) ← readVarintAux fuel bs
      .ok ((b &&& 127) + v * 128, bs)

def readVarint (bs : Bytes) : Except ParseError (Nat × Bytes) := readVarintAux 5 bs

/-- Read `n` big-endian bytes into an accumulator. -/
def readBE : Nat → Nat → Bytes → Except ParseError (Nat × Bytes)
  | 0, acc, bs => .ok (acc, bs)
  | n + 1, acc, bs => do
    let (b, bs) ← readU8 bs
    readBE n (acc * 256 + b) bs

def readWordList : Nat → Bytes → Except ParseError (List Nat × Bytes)
  | 0, bs => .ok ([], bs)
  | n + 1, bs => do
    let (wrd, bs) ← readBE 8 0 bs
    let (rest, bs) ← readWordList n bs
    .ok (wrd :: rest, bs)

def readVarintList : Nat → Bytes → Except ParseError (List Nat × Bytes)
  | 0, bs => .ok ([], bs)
  | n + 1, bs => do
    let (v, bs) ← readVarint bs
    let (rest, bs) ← readVarintList n bs
    .ok (v :: rest, bs)

/-- Modelled from the spec (section 4.1, "Parsing from buffer"): `bpe = 0`
is a single-value palette; `bpe` below the direct threshold is an indirect
palette (widths below the minimum round up to it); `bpe` from the threshold
up to 32 is direct at that width; larger `bpe` is unsupported. -/
def parseContainer (cfg : ContainerCfg) (bs : Bytes) :
    Except ParseError (PalettedContainer × Bytes) := do
  let (bpe, bs) ← readU8 bs
  if bpe = 0 then do
    let (v, bs) ← readVarint bs
    let (dataLen, bs) ← readVarint bs
    let (_, bs) ← readWordList dataLen bs
    .ok ({ bitsPerEntry := 0, palette := .single v, data := [] }, bs)
  else if bpe < cfg.directThreshold then do
    let b := max bpe cfg.minIndirectBits
    let (len, bs) ← readVarint bs
    if len = 0 ∨ 2 ^ b < len then .error .badPalette
    else do
      let (vals, bs) ← readVarintList len bs
      let (dataLen, bs) ← readVarint bs
      if dataLen ≠ wordsFor cfg.size b then .error .badDataLength
      else do
        let (words, bs) ← readWordList dataLen bs
        .ok ({ bitsPerEntry := b, palette := .indirect vals, data := words }, bs)
  else if bpe ≤ 32 then do
    let (dataLen, bs) ← readVarint bs
    if dataLen ≠ wordsFor cfg.size bpe then .error .badDataLength
    else do
      let (words, bs) ← readWordList dataLen bs
      .ok ({ bitsPerEntry := bpe, palette := .direct, data := words }, bs)
  else .error .unsupportedBpe

/-- Count of non-air entries, recomputed on bulk load (spec section 4.2). -/
def countSolid (c : PalettedContainer) : Nat :=
  ((List.range 4096).filter (fun i => decide (c.get i ≠ 0))).length

/-- Modelled from the spec (sections 4.5 and 6): `solidCount`, blocks,
biomes; an all-air section (single-value block palette with value 0) is
materialized as a nil section. -/
def parseSection (bs : Bytes) : Except ParseError (Option ChunkSection × Bytes) := do
  let (_solid, bs) ← readU16be bs
  let (blocks, bs) ← parseContainer blockCfg bs
  let (biomes, bs) ← parseContainer biomeCfg bs
  if blocks.bitsPerEntry = 0 ∧ blocks.palette = .single 0 then
    .ok (none, bs)
  else
    .ok (some { blocks := blocks, biomes := biomes, blockLight := none,
                skyLight := none, solidCount := countSolid blocks }, bs)

def parseSections : Nat → Bytes → Except ParseError (List (Option ChunkSection) × Bytes)
  | 0, bs => .ok ([], bs)
  | n + 1, bs => do
    let (s, bs) ← parseSection bs
    let (rest, bs) ← parseSections n bs
    .ok (s :: rest, bs)

def parseColumn (cx cz : Int) (bs : Bytes) : Except ParseError Column := do
  let (secs, _) ← parseSections sectionCount bs
  .ok { cx := cx, cz := cz, sections := secs }

/-- Insert or replace the column at `(cx, cz)`. -/
def insertColumn (cols : List ((Int × Int) × Column)) (cx cz : Int) (col : Column) :
    List ((Int × Int) × Column) :=
  ((cx, cz), col) :: cols.filter (fun p => decide (p.1 ≠ (cx, cz)))

/-- Modelled from the spec (section 4.4): parse then insert or replace; on
a parse failure the world is returned unchanged together with the typed
error (the JS callers catch the exception and keep using the world). -/
def World.loadColumn (w : World) (cx cz : Int) (bs : Bytes) :
    World × Option ParseError :=
  match parseColumn cx cz bs with
  | .error e => (w, some e)
  | .ok col => ({ columns := insertColumn w.columns cx cz col }, none)

/-! ### Raycaster (spec section 4.6, Amanatides-Woo voxel DDA)

Modelled from the spec.  The spec's floating-point arithmetic is rendered
over `ℚ`: instead of normalizing `direction` (whose length is irrational in
general), the traversal parameter `t` is kept in direction units — the
point reached at parameter `t` is `origin + t * direction` exactly as in
the normalized algorithm, and the travelled distance `t * |direction|` is
compared against `maxDistance` by comparing squares, which is exact.  On
the dyadic inputs of the spec's scenarios both renditions agree bit for
bit with binary floating point. -/

structure Vec3q where
  x : ℚ
  y : ℚ
  z : ℚ
deriving DecidableEq

structure RayHit where
  position : Int × Int × Int
  face : Nat
  intersectPoint : Vec3q
  stateId : Nat
deriving DecidableEq

def qfloor (q : ℚ) : Int := q.floor

def qceil (q : ℚ) : Int := -(Rat.floor (-q))

/-- Comparison on `Option ℚ` treating `none` as infinity; ties favor the
first argument, realizing the spec's X-then-Y-then-Z tie-break. -/
def optLE (a b : Option ℚ) : Bool :=
  match a, b with
  | none, none => true
  | none, some _ => false
  | some _, none => true
  | some p, some q => decide (p ≤ q)

/-- Parametric distance from the origin to the first integer boundary in
the step direction (spec section 4.6 step 3); `none` when the axis
direction is zero. -/
def initTMax (o d : ℚ) : Option ℚ :=
  if 0 < d then some (((qfloor o : Int) + 1 - o) / d)
  else if d < 0 then some (((qfloor o : Int) - o) / d)
  else none

/-- One DDA step per iteration: select the axis with the smallest tMax,
advance the voxel, classify the face as the opposite of the step, stop
when the travelled distance exceeds `maxDistance`, and report the first
non-ignored solid voxel (spec section 4.6 steps 4-6). -/
def raycastLoop (w : World) (ox oy oz dx dy dz normSq maxDistance : ℚ)
    (ignore : Nat → Bool) :
    Nat → Int → Int → Int → Option ℚ → Option ℚ → Option ℚ → Option RayHit
  | 0, _, _, _, _, _, _ => none
  | fuel + 1, vx, vy, vz, tMaxX, tMaxY, tMaxZ =>
    if optLE tMaxX tMaxY && optLE tMaxX tMaxZ then
      match tMaxX with
      | none => none
      | some t =>
        if maxDistance < 0 ∨ maxDistance * maxDistance < normSq * (t * t) then none
        else
          let vx' := vx + (if 0 < dx then 1 else -1)
          let face : Nat := if 0 < dx then 4 else 5
          let sid := w.getBlockStateId vx' vy vz
          if sid ≠ 0 ∧ ignore sid = false then
            some { position := (vx', vy, vz), face := face,
                   intersectPoint := ⟨ox + t * dx, oy + t * dy, oz + t * dz⟩,
                   stateId := sid }
          else
            raycastLoop w ox oy oz dx dy dz normSq maxDistance ignore fuel
              vx' vy vz (some (t + 1 / |dx|)) tMaxY tMaxZ
    else if optLE tMaxY tMaxZ then
      match tMaxY with
      | none => none
      | some t =>
        if maxDistance < 0 ∨ maxDistance * maxDistance < normSq * (t * t) then none
        else
          let vy' := vy + (if 0 < dy then 1 else -1)
          let face : Nat := if 0 < dy then 0 else 1
          let sid := w.getBlockStateId vx vy' vz
          if sid ≠ 0 ∧ ignore sid = false then
            some { position := (vx, vy', vz), face := face,
                   intersectPoint := ⟨ox + t * dx, oy + t * dy, oz + t * dz⟩,
                   stateId := sid }
          else
            raycastLoop w ox oy oz dx dy dz normSq maxDistance ignore fuel
              vx vy' vz tMaxX (some (t + 1 / |dy|)) tMaxZ
    else
      match tMaxZ with
      | none => none
      | some t =>
        if maxDistance < 0 ∨ maxDistance * maxDistance < normSq * (t * t) then none
        else
          let vz' := vz + (if 0 < dz then 1 else -1)
          let face : Nat := if 0 < dz then 2 else 3
          let sid := w.getBlockStateId vx vy vz'
          if sid ≠ 0 ∧ ignore sid = false then
            some { position := (vx, vy, vz'), face := face,
                   intersectPoint := ⟨ox + t * dx, oy + t * dy, oz + t * dz⟩,
                   stateId := sid }
          else
            raycastLoop w ox oy oz dx dy dz normSq maxDistance ignore fuel
              vx vy vz' tMaxX tMaxY (some (t + 1 / |dz|))

/-- Iteration budget: each DDA step crosses a voxel boundary, so this bound
is generous for every scenario exercised here. -/
def rayFuel (maxDistance : ℚ) : Nat := 3 * ((qceil maxDistance).toNat + 2)

/-- Modelled from the spec (section 4.6): zero-length direction returns
nil (step 1); otherwise voxel DDA from the floored origin. -/
def World.raycast (w : World) (origin direction : Vec3q) (maxDistance : ℚ)
    (ignore : Nat → Bool) : Option RayHit :=
  if direction.x = 0 ∧ direction.y = 0 ∧ direction.z = 0 then none
  else
    raycastLoop w origin.x origin.y origin.z direction.x direction.y direction.z
      (direction.x * direction.x + direction.y * direction.y + direction.z * direction.z)
      maxDistance ignore (rayFuel maxDistance)
      (qfloor origin.x) (qfloor origin.y) (qfloor origin.z)
      (initTMax origin.x direction.x) (initTMax origin.y direction.y)
      (initTMax origin.z direction.z)

end Core

namespace Callers

/-!
Translations of the `multi_block_change` handlers of the JavaScript
callers.  Each decodes a packet record `r` (a non-negative integer; the JS
uses BigInt) and produces the arguments passed to
`world.setBlockStateId(worldX, worldY, worldZ, stateId)`.
-/

structure BlockUpdate where
  worldX : Int
  worldY : Int
  worldZ : Int
  stateId : Nat
deriving DecidableEq

/-- Translated from src/unnamed/part_000 lines 72-92:
`worldY = sectionY * 16 + relativeY`. -/
def part000_decodeRecord (chunkX chunkZ sectionY : Int) (record : Nat) : BlockUpdate :=
  let blockIndex := record >>> 12
  let posData := record &&& 0xFFF
  let relativeY := posData &&& 0xF
  let z := (posData >>> 4) &&& 0xF
  let x := (posData >>> 8) &&& 0xF
  { worldX := chunkX * 16 + (x : Int), worldY := sectionY * 16 + (relativeY : Int),
    worldZ := chunkZ * 16 + (z : Int), stateId := blockIndex }

/-- Translated from src/world-test/src/mitm.js lines 114-134:
`worldY = sectionY * 16 + relativeY`. -/
def mitm_decodeRecord (chunkX chunkZ sectionY : Int) (record : Nat) : BlockUpdate :=
  let blockIndex := record >>> 12
  let posData := record &&& 0xFFF
  let relativeY := posData &&& 0xF
  let z := (posData >>> 4) &&& 0xF
  let x := (posData >>> 8) &&& 0xF
  { worldX := chunkX * 16 + (x : Int), worldY := sectionY * 16 + (relativeY : Int),
    worldZ := chunkZ * 16 + (z : Int), stateId := blockIndex }

/-- Translated from src/unnamed/part_001, protocol.js section, lines
274-299: `absoluteSectionY = MIN_SECTION_Y_JS + sectionY` with
`MIN_SECTION_Y_JS = -4`, then `worldY = absoluteSectionY * 16 + relativeY`. -/
def protocolJs_decodeRecord (chunkX chunkZ sectionY : Int) (record : Nat) : BlockUpdate :=
  let blockIndex := record >>> 12
  let posData := record &&& 0xFFF
  let relativeY := posData &&& 0xF
  let z := (posData >>> 4) &&& 0xF
  let x := (posData >>> 8) &&& 0xF
  let absoluteSectionY := -4 + sectionY
  { worldX := chunkX * 16 + (x : Int),
    worldY := absoluteSectionY * 16 + (relativeY : Int),
    worldZ := chunkZ * 16 + (z : Int), stateId := blockIndex }

/-- Translated from src/world-test/src/raycast-test.js lines 77-97:
`worldY = sectionY * 16 + MIN_CHUNK_Y_RUST + relativeY` with
`MIN_CHUNK_Y_RUST = -64`. -/
def raycastTest_decodeRecord (chunkX chunkZ sectionY : Int) (record : Nat) : BlockUpdate :=
  let blockStateId := record >>> 12
  let posData := record &&& 0xFFF
  let relativeY := posData &&& 0xF
  let z := (posData >>> 4) &&& 0xF
  let x := (posData >>> 8) &&& 0xF
  { worldX := chunkX * 16 + (x : Int),
    worldY := sectionY * 16 + (-64) + (relativeY : Int),
    worldZ := chunkZ * 16 + (z : Int), stateId := blockStateId }

/-- Translated from src/unnamed/part_001, proxy.js section, lines 704-741:
`worldY = sectionY !== -1 ? sectionY * 16 + relativeY : relativeY`. -/
def proxyJs_decodeRecord (chunkX chunkZ sectionY : Int) (record : Nat) : BlockUpdate :=
  let blockIndex := record >>> 12
  let posData := record &&& 0xFFF
  let relativeY := posData &&& 0xF
  let z := (posData >>> 4) &&& 0xF
  let x := (posData >>> 8) &&& 0xF
  { worldX := chunkX * 16 + (x : Int),
    worldY := if sectionY ≠ -1 then sectionY * 16 + (relativeY : Int) else (relativeY : Int),
    worldZ := chunkZ * 16 + (z : Int), stateId := blockIndex }

/-- Translated from src/world-test/src/raycast-test.js lines 178-181. -/
def blockFaceNames (face : Nat) : Option String :=
  match face with
  | 0 => some ("bottom (-Y)")
  | 1 => some ("top (+Y)")
  | 2 => some ("north (-Z)")
  | 3 => some ("south (+Z)")
  | 4 => some ("west (-X)")
  | 5 => some ("east (+X)")
  | _ => none

/-! Bit identities relating the two-stage decode (`posData = r &&& 0xFFF`
first) to the direct masks of the claim. -/

theorem and_fff_and_f (r : Nat) : r &&& 0xFFF &&& 0xF = r &&& 0xF := by
  have h12 : (0xFFF : Nat) = 2 ^ 12 - 1 := by norm_num
  have h4 : (0xF : Nat) = 2 ^ 4 - 1 := by norm_num
  rw [h12, h4]
  apply Nat.eq_of_testBit_eq
  intro i
  simp only [Nat.testBit_and, Nat.testBit_two_pow_sub_one]
  by_cases hi : i < 4
  · have h' : i < 12 := by omega
    simp [hi, h']
  · simp [hi]

theorem and_fff_shift4_and_f (r : Nat) :
    (r &&& 0xFFF) >>> 4 &&& 0xF = r >>> 4 &&& 0xF := by
  have h12 : (0xFFF : Nat) = 2 ^ 12 - 1 := by norm_num
  have h4 : (0xF : Nat) = 2 ^ 4 - 1 := by norm_num
  rw [h12, h4]
  apply Nat.eq_of_testBit_eq
  intro i
  simp only [Nat.testBit_and, Nat.testBit_shiftRight, Nat.testBit_two_pow_sub_one]
  by_cases hi : i < 4
  · have h' : 4 + i < 12 := by omega
    simp [hi, h']
  · simp [hi]

theorem and_fff_shift8_and_f (r : Nat) :
    (r &&& 0xFFF) >>> 8 &&& 0xF = r >>> 8 &&& 0xF := by
  have h12 : (0xFFF : Nat) = 2 ^ 12 - 1 := by norm_num
  have h4 : (0xF : Nat) = 2 ^ 4 - 1 := by norm_num
  rw [h12, h4]
  apply Nat.eq_of_testBit_eq
  intro i
  simp only [Nat.testBit_and, Nat.testBit_shiftRight, Nat.testBit_two_pow_sub_one]
  by_cases hi : i < 4
  · have h' : 8 + i < 12 := by omega
    simp [hi, h']
  · simp [hi]

end Callers

namespace ProxyModel

/-!
Translation of the proxy (src/unnamed/part_001, proxy.js section, and
src/world-test/src/mitm.js): per-client state with a world, a new `World`
constructed at each login, and `_handleWorldPacket` updating only the
world of the client whose target connection produced the packet.
-/

/-- World-relevant packets handled by `_handleWorldPacket`
(part_001 lines 674-746). -/
inductive WorldPacket where
  | mapChunk (x z : Int) (chunkData : Core.Bytes)
  | unloadChunk (chunkX chunkZ : Int)
  | blockChange (x y z : Int) (stateId : Nat)
  | multiBlockChange (chunkX chunkZ sectionY : Int) (records : List Nat)
  | other
deriving DecidableEq

/-- A `setBlockStateId` call inside the JS try/catch: errors are logged and
the world is left as it was. -/
def applySet (w : Core.World) (x y z : Int) (v : Nat) : Core.World :=
  match w.setBlockStateId x y z v with
  | .ok w' => w'
  | .error _ => w

/-- Translated from part_001 `_handleWorldPacket` (lines 674-746): the
packet mutates the given client's world only. -/
def handleWorldPacket (w : Core.World) (pkt : WorldPacket) : Core.World :=
  match pkt with
  | .mapChunk x z chunkData => (w.loadColumn x z chunkData).1
  | .unloadChunk cx cz => w.unloadColumn cx cz
  | .blockChange x y z sid => applySet w x y z sid
  | .multiBlockChange cx cz sy records =>
    records.foldl (fun acc r =>
      let u := Callers.proxyJs_decodeRecord cx cz sy r
      applySet acc u.worldX u.worldY u.worldZ u.stateId) w
  | .other => w

structure ClientState where
  world : Core.World
deriving DecidableEq

structure ProxyState where
  clients : List (Nat × ClientState)
deriving DecidableEq

def lookupClient : List (Nat × ClientState) → Nat → Option ClientState
  | [], _ => none
  | (k, cs) :: rest, cid => if k = cid then some cs else lookupClient rest cid

/-- Translated from part_001 `_handleNewClientConnection` (lines 567-581):
every connecting client is registered with a freshly constructed `World`. -/
def handleNewClientConnection (p : ProxyState) (clientId : Nat) : ProxyState :=
  { clients := (clientId, { world := Core.World.empty }) :: p.clients }

/-- Apply the packet to the entry of `clientId`, leaving every other
client's state untouched. -/
def updateClient : List (Nat × ClientState) → Nat → WorldPacket →
    List (Nat × ClientState)
  | [], _, _ => []
  | (k, cs) :: rest, cid, pkt =>
    if k = cid then (k, { world := handleWorldPacket cs.world pkt }) :: updateClient rest cid pkt
    else (k, cs) :: updateClient rest cid pkt

/-- A packet arriving on the target connection of `clientId` is processed
against that client's state only (part_001 lines 611-628). -/
def handleClientPacket (p : ProxyState) (clientId : Nat) (pkt : WorldPacket) :
    ProxyState :=
  { clients := updateClient p.clients clientId pkt }

theorem lookupClient_updateClient_other (cid cid' : Nat) (pkt : WorldPacket)
    (h : cid' ≠ cid) :
    ∀ l : List (Nat × ClientState),
      lookupClient (updateClient l cid pkt) cid' = lookupClient l cid' := by
  intro l
  induction l with
  | nil => rfl
  | cons q rest ih =>
    obtain ⟨k, cs⟩ := q
    by_cases hk : k = cid
    · simp [updateClient, lookupClient, hk, Ne.symm h, ih]
    · by_cases hk' : k = cid'
      · simp [updateClient, lookupClient, hk, hk', h]
      · simp [updateClient, lookupClient, hk, hk', ih]

end ProxyModel

namespace Core

/-! ### Well-formedness and world-level lemmas -/

/-- Column invariants (spec section 3): the section vector has
`sectionCount` entries and every present section holds well-formed
containers. -/
def columnWF (col : Column) : Bool :=
  (col.sections.length == sectionCount)
    && col.sections.all (fun os =>
        match os with
        | none => true
        | some s => containerWF blockCfg s.blocks && containerWF biomeCfg s.biomes)

def worldWF (w : World) : Bool := w.columns.all (fun p => columnWF p.2)

theorem lookupColumn_wf (cx cz : Int) :
    ∀ (l : List ((Int × Int) × Column)) (col : Column),
      l.all (fun p => columnWF p.2) = true → lookupColumn l cx cz = some col →
      columnWF col = true := by
  intro l
  induction l with
  | nil => intro col _ h; exact Option.noConfusion h
  | cons q rest ih =>
    intro col hall hl
    obtain ⟨k, c⟩ := q
    simp only [List.all_cons, Bool.and_eq_true] at hall
    simp only [lookupColumn] at hl
    by_cases hk : k = (cx, cz)
    · rw [if_pos hk] at hl
      cases hl
      exact hall.1
    · rw [if_neg hk] at hl
      exact ih col hall.2 hl

theorem lookupColumn_update_self (cx cz : Int) (col : Column) :
    ∀ (l : List ((Int × Int) × Column)) (c0 : Column),
      lookupColumn l cx cz = some c0 →
      lookupColumn (l.map (fun p => if p.1 = (cx, cz) then ((cx, cz), col) else p)) cx cz
        = some col := by
  intro l
  induction l with
  | nil => intro c0 h; exact Option.noConfusion h
  | cons q rest ih =>
    intro c0 hl
    obtain ⟨k, c⟩ := q
    simp only [lookupColumn] at hl
    by_cases hk : k = (cx, cz)
    · subst hk
      rw [List.map_cons]
      have hhead : (if (((cx, cz), c) : (Int × Int) × Column).1 = (cx, cz)
          then (((cx, cz), col) : (Int × Int) × Column) else ((cx, cz), c)) = ((cx, cz), col) := by
        simp
      rw [hhead]
      simp [lookupColumn]
    · rw [if_neg hk] at hl
      simp only [List.map_cons, if_neg hk]
      simp only [lookupColumn, if_neg hk]
      exact ih c0 hl

theorem lookupColumn_filter_self (cx cz : Int) :
    ∀ l : List ((Int × Int) × Column),
      lookupColumn (l.filter (fun p => decide (p.1 ≠ (cx, cz)))) cx cz = none := by
  intro l
  induction l with
  | nil => rfl
  | cons q rest ih =>
    obtain ⟨k, c⟩ := q
    by_cases hk : k = (cx, cz)
    · simp only [List.filter, hk]
      simpa using ih
    · simp only [List.filter]
      rw [show (decide ((k, c).1 ≠ (cx, cz))) = true by simpa using hk]
      simp only [lookupColumn, if_neg hk]
      exact ih

/-- A present section of a well-formed column has well-formed containers. -/
theorem sectionWF_of_getD (col : Column) (sy : Nat) (s : ChunkSection)
    (hwf : columnWF col = true)
    (hs : col.sections.getD sy none = some s) :
    containerWF blockCfg s.blocks = true ∧ containerWF biomeCfg s.biomes = true := by
  simp only [columnWF, Bool.and_eq_true, beq_iff_eq] at hwf
  have hmem : some s ∈ col.sections := by
    cases hg : col.sections[sy]? with
    | none =>
      rw [List.getD, List.get?_eq_getElem?, hg] at hs
      exact Option.noConfusion hs
    | some v =>
      rw [List.getD, List.get?_eq_getElem?, hg] at hs
      simp only [Option.getD_some] at hs
      subst hs
      exact List.getElem?_mem hg
  have := List.all_eq_true.mp hwf.2 (some s) hmem
  simpa [Bool.and_eq_true] using this

theorem columnWF_length (col : Column) (hwf : columnWF col = true) :
    col.sections.length = sectionCount := by
  simp only [columnWF, Bool.and_eq_true, beq_iff_eq] at hwf
  exact hwf.1

theorem local_coord_bound (x : Int) : (x % 16).toNat < 16 := by omega

theorem blockIndex_lt (lx ly lz : Nat) (hx : lx < 16) (hy : ly < 16)
    (hz : lz < 16) : blockIndex lx ly lz < 4096 := by
  unfold blockIndex; omega

theorem sy_lt (y : Int) (hy : yInRange y) : (y - minY).toNat / 16 < sectionCount := by
  unfold yInRange minY sectionCount at *
  omega

/-- The blocks container of a written section. -/
theorem sectionWrite_blocks (s : ChunkSection) (idx v : Nat) :
    (sectionWrite s idx v).blocks = s.blocks.set blockCfg idx v := rfl

/-- Reading back through a freshly updated column. -/
theorem getBlockStateId_after_update (w : World) (x y z : Int) (col : Column)
    (s' : ChunkSection)
    (hl : lookupColumn w.columns (x / 16) (z / 16) = some col)
    (hy : yInRange y)
    (hslen : col.sections.length = sectionCount) :
    (updateColumn w (x / 16) (z / 16)
        { col with sections := col.sections.set ((y - minY).toNat / 16) (some s') }
      ).getBlockStateId x y z
      = s'.blocks.get (blockIndex (x % 16).toNat ((y - minY).toNat % 16) (z % 16).toNat) := by
  have hl' := lookupColumn_update_self (x / 16) (z / 16)
    { col with sections := col.sections.set ((y - minY).toNat / 16) (some s') }
    w.columns col hl
  have hsy : (y - minY).toNat / 16 < col.sections.length := by
    rw [hslen]; exact sy_lt y hy
  simp only [World.getBlockStateId, updateColumn] at hl' ⊢
  rw [hl']
  simp only [hy, if_true]
  rw [getD_set_self none col.sections _ _ hsy]

/-- C1 core: a write to a loaded column with in-range `y` succeeds and
reads back, materializing an absent section when needed. -/
theorem setBlockStateId_roundtrip (w : World) (x y z : Int) (v : Nat)
    (hwf : worldWF w = true)
    (hcol : lookupColumn w.columns (x / 16) (z / 16) ≠ none)
    (hy : yInRange y) (hv : v < 2 ^ blockCfg.directBits) :
    ∃ w', w.setBlockStateId x y z v = Except.ok w'
      ∧ w'.getBlockStateId x y z = v := by
  cases hl : lookupColumn w.columns (x / 16) (z / 16) with
  | none => exact absurd hl hcol
  | some col =>
    have hcwf : columnWF col = true := lookupColumn_wf _ _ w.columns col hwf hl
    have hslen : col.sections.length = sectionCount := columnWF_length col hcwf
    have hidx : blockIndex (x % 16).toNat ((y - minY).toNat % 16) (z % 16).toNat < 4096 :=
      blockIndex_lt _ _ _ (local_coord_bound x) (by omega) (local_coord_bound z)
    have hcfg : cfgWF blockCfg = true := by decide
    cases hsec : col.sections.getD ((y - minY).toNat / 16) none with
    | none =>
      by_cases hv0 : v = 0
      · have hset : w.setBlockStateId x y z v = Except.ok w := by
          simp only [World.setBlockStateId, hl, hy, if_true, hsec]
          rw [if_pos hv0]
        have hget : w.getBlockStateId x y z = v := by
          simp only [World.getBlockStateId, hl, hy, if_true, hsec]
          omega
        exact ⟨w, hset, hget⟩
      · have hset : w.setBlockStateId x y z v = Except.ok (updateColumn w (x / 16) (z / 16) { col with sections := col.sections.set ((y - minY).toNat / 16) (some (sectionWrite emptySection (blockIndex (x % 16).toNat ((y - minY).toNat % 16) (z % 16).toNat) v)) }) := by
          simp only [World.setBlockStateId, hl, hy, if_true, hsec]
          rw [if_neg hv0]
        have hget := getBlockStateId_after_update w x y z col
          (sectionWrite emptySection
            (blockIndex (x % 16).toNat ((y - minY).toNat % 16) (z % 16).toNat) v)
          hl hy hslen
        rw [sectionWrite_blocks,
          PalettedContainer.get_set blockCfg emptySection.blocks _ v hcfg (by decide) hidx hv]
          at hget
        exact ⟨_, hset, hget⟩
    | some s =>
      have hswf := (sectionWF_of_getD col _ s hcwf hsec).1
      have hset : w.setBlockStateId x y z v = Except.ok (updateColumn w (x / 16) (z / 16) { col with sections := col.sections.set ((y - minY).toNat / 16) (some (sectionWrite s (blockIndex (x % 16).toNat ((y - minY).toNat % 16) (z % 16).toNat) v)) }) := by
        simp only [World.setBlockStateId, hl, hy, if_true, hsec]
      have hget := getBlockStateId_after_update w x y z col
        (sectionWrite s
          (blockIndex (x % 16).toNat ((y - minY).toNat % 16) (z % 16).toNat) v)
        hl hy hslen
      rw [sectionWrite_blocks,
        PalettedContainer.get_set blockCfg s.blocks _ v hcfg hswf hidx hv] at hget
      exact ⟨_, hset, hget⟩

/-- C2 core (amended): reading a loaded column at an absent section yields
the full default record; both light fields are 15, the `light` field being
the declaration file's placeholder value. -/
theorem getBlock_absent_section (w : World) (x y z : Int) (col : Column)
    (hl : lookupColumn w.columns (x / 16) (z / 16) = some col)
    (hy : yInRange y)
    (hs : col.sections.getD ((y - minY).toNat / 16) none = none) :
    w.getBlock x y z = some { stateId := 0, light := 15, skyLight := 15, biomeId := 0 } := by
  simp only [World.getBlock, World.getBlockStateId, skyLightAt, World.getBiomeId,
    hl, hy, if_true, hs]

/-- C3 core: a failed parse leaves the world identical, so the prior
column (if any) still serves every read. -/
theorem loadColumn_error_preserves (w : World) (cx cz : Int) (bs : Bytes)
    (e : ParseError) (he : (w.loadColumn cx cz bs).2 = some e) :
    (w.loadColumn cx cz bs).1 = w
    ∧ lookupColumn (w.loadColumn cx cz bs).1.columns cx cz = lookupColumn w.columns cx cz
    ∧ ∀ x y z : Int, (w.loadColumn cx cz bs).1.getBlock x y z = w.getBlock x y z := by
  cases hp : parseColumn cx cz bs with
  | error e2 =>
    simp [World.loadColumn, hp]
  | ok col =>
    simp only [World.loadColumn, hp] at he
    exact Option.noConfusion he

/-- C4 core: `getBlock` is nil exactly when the covering column is not
loaded, and is always nil right after that column is unloaded; as a total
function it can never raise. -/
theorem getBlock_none_iff_not_loaded (w : World) (x y z : Int) :
    (w.getBlock x y z = none ↔ lookupColumn w.columns (x / 16) (z / 16) = none)
    ∧ (w.unloadColumn (x / 16) (z / 16)).getBlock x y z = none := by
  constructor
  · cases hl : lookupColumn w.columns (x / 16) (z / 16) with
    | none => simp [World.getBlock, hl]
    | some col => simp [World.getBlock, hl]
  · have hnone := lookupColumn_filter_self (x / 16) (z / 16) w.columns
    simp only [World.getBlock, World.unloadColumn]
    rw [hnone]

theorem le32_length (v : Nat) : (le32 v).length = 4 := rfl

theorem buildBytes_length (f : Nat → List Nat) (hf : ∀ i, (f i).length = 4) :
    ∀ n, (buildBytes f n).length = 4 * n := by
  intro n
  induction n with
  | zero => rfl
  | succ m ih =>
    simp only [buildBytes, List.length_append, ih, hf m]
    omega

theorem buildBytes_extract (f : Nat → List Nat) (hf : ∀ i, (f i).length = 4) :
    ∀ (n i : Nat), i < n → ((buildBytes f n).drop (4 * i)).take 4 = f i := by
  intro n
  induction n with
  | zero => intro i h; omega
  | succ m ih =>
    intro i h
    by_cases him : i < m
    · have hlen : (buildBytes f m).length = 4 * m := buildBytes_length f hf m
      simp only [buildBytes]
      rw [List.drop_append_of_le_length (by omega)]
      rw [List.take_append_of_le_length (by simp [hlen]; omega)]
      exact ih i him
    · have hi : i = m := by omega
      subst hi
      have hlen : (buildBytes f i).length = 4 * i := buildBytes_length f hf i
      simp only [buildBytes]
      rw [List.drop_left' hlen, ← hf i]
      simp

/-- Reading a block of a present section through world coordinates built
from chunk, section, and local offsets. -/
theorem getBlockStateId_section (w : World) (cx cz sy : Int) (col : Column)
    (s : ChunkSection) (lx ly lz : Nat)
    (hlx : lx < 16) (hly : ly < 16) (hlz : lz < 16)
    (hsy0 : 0 ≤ sy) (hsy1 : sy < (sectionCount : Int))
    (hl : lookupColumn w.columns cx cz = some col)
    (hsec : col.sections.getD sy.toNat none = some s) :
    w.getBlockStateId (16 * cx + (lx : Int)) (minY + 16 * sy + (ly : Int)) (16 * cz + (lz : Int))
      = s.blocks.get (blockIndex lx ly lz) := by
  have hcx : (16 * cx + (lx : Int)) / 16 = cx := by omega
  have hcz : (16 * cz + (lz : Int)) / 16 = cz := by omega
  have hlx' : ((16 * cx + (lx : Int)) % 16).toNat = lx := by omega
  have hlz' : ((16 * cz + (lz : Int)) % 16).toNat = lz := by omega
  have hy : yInRange (minY + 16 * sy + (ly : Int)) := by
    unfold yInRange minY sectionCount at *
    omega
  have hsy' : ((minY + 16 * sy + (ly : Int)) - minY).toNat / 16 = sy.toNat := by
    unfold minY
    omega
  have hly' : ((minY + 16 * sy + (ly : Int)) - minY).toNat % 16 = ly := by
    unfold minY
    omega
  simp only [World.getBlockStateId, hcx, hcz, hl, hy, if_true, hsy', hsec, hlx', hly', hlz']

/-- C5 core: an export is exactly 16384 bytes of little-endian u32 state
ids in linear index order, and is nil when the chunk or section is not
loaded or the section index is out of `[0, sectionCount)`. -/
theorem exportSectionStates_spec (w : World) (cx cz sy : Int) :
    (∀ bytes, w.exportSectionStates cx cz sy = some bytes →
      bytes.length = 16384
      ∧ ∀ lx ly lz : Nat, lx < 16 → ly < 16 → lz < 16 →
          (bytes.drop (4 * blockIndex lx ly lz)).take 4
            = le32 (w.getBlockStateId (16 * cx + (lx : Int))
                (minY + 16 * sy + (ly : Int)) (16 * cz + (lz : Int))))
    ∧ (lookupColumn w.columns cx cz = none → w.exportSectionStates cx cz sy = none)
    ∧ ((sy < 0 ∨ (sectionCount : Int) ≤ sy) → w.exportSectionStates cx cz sy = none)
    ∧ (∀ col, lookupColumn w.columns cx cz = some col →
        col.sections.getD sy.toNat none = none → w.exportSectionStates cx cz sy = none) := by
  refine ⟨?_, ?_, ?_, ?_⟩
  · intro bytes hb
    simp only [World.exportSectionStates] at hb
    cases hl : lookupColumn w.columns cx cz with
    | none => rw [hl] at hb; exact Option.noConfusion hb
    | some col =>
      simp only [hl] at hb
      by_cases hr : 0 ≤ sy ∧ sy < (sectionCount : Int)
      · rw [if_pos hr] at hb
        cases hsec : col.sections.getD sy.toNat none with
        | none => rw [hsec] at hb; exact Option.noConfusion hb
        | some s =>
          simp only [hsec] at hb
          have hbytes := Option.some.inj hb
          subst hbytes
          constructor
          · rw [buildBytes_length _ (fun i => le32_length _)]
          · intro lx ly lz hlx hly hlz
            have hidx : blockIndex lx ly lz < 4096 := blockIndex_lt _ _ _ hlx hly hlz
            rw [buildBytes_extract _ (fun i => le32_length _) 4096 _ hidx]
            rw [getBlockStateId_section w cx cz sy col s lx ly lz hlx hly hlz
              hr.1 hr.2 hl hsec]
      · rw [if_neg hr] at hb
        exact Option.noConfusion hb
  · intro hl
    simp only [World.exportSectionStates, hl]
  · intro hr
    simp only [World.exportSectionStates]
    cases hl : lookupColumn w.columns cx cz with
    | none => rfl
    | some col =>
      simp only [hl]
      rw [if_neg (by unfold sectionCount at *; omega)]
  · intro col hl hsec
    simp only [World.exportSectionStates, hl]
    by_cases hr : 0 ≤ sy ∧ sy < (sectionCount : Int)
    · rw [if_pos hr, hsec]
    · rw [if_neg hr]

/-! ### Concrete example worlds (scenario S1's buffer shape with all-air
sections, and scenario S5's world) -/

/-- One all-air section: solidCount 0 (i16 be), block bpe 0 with varint
value 0 and dataLen 0, biome bpe 0 with varint value 0 and dataLen 0
(the buffer shape of part_001 lines 15-23 with palette value 0). -/
def airSectionBytes : Bytes := [0, 0, 0, 0, 0, 0, 0, 0]

def airColumnBytes : Bytes := (List.replicate sectionCount airSectionBytes).flatten

/-- An otherwise-air column loaded at chunk (0, 0). -/
def wAir : World := (World.empty.loadColumn 0 0 airColumnBytes).1

/-- Scenario S5's world: the air column with `setBlockStateId(3, 65, 0, 1)`. -/
def wRay : World := (wAir.setBlockStateId 3 65 0 1).toOption.getD wAir

def columnAt00 : Column :=
  (lookupColumn wAir.columns 0 0).getD { cx := 0, cz := 0, sections := [] }

def exportedBytes : List Nat := (wRay.exportSectionStates 0 0 8).getD []

/-! ### Raycast argument handling (spec section 4.6 step 1 and step 6) -/

/-- Zero-length direction returns nil (spec section 4.6 step 1). -/
theorem raycast_zero_direction (w : World) (origin : Vec3q) (maxDistance : ℚ)
    (ignore : Nat → Bool) :
    w.raycast origin ⟨0, 0, 0⟩ maxDistance ignore = none := by
  simp [World.raycast]

theorem raycastLoop_neg_maxDistance (w : World)
    (ox oy oz dx dy dz normSq maxDistance : ℚ) (ignore : Nat → Bool)
    (hneg : maxDistance < 0) :
    ∀ (fuel : Nat) (vx vy vz : Int) (tMaxX tMaxY tMaxZ : Option ℚ),
      raycastLoop w ox oy oz dx dy dz normSq maxDistance ignore fuel
        vx vy vz tMaxX tMaxY tMaxZ = none := by
  intro fuel
  induction fuel with
  | zero => intro vx vy vz a b c; rfl
  | succ n ih =>
    intro vx vy vz tMaxX tMaxY tMaxZ
    simp only [raycastLoop]
    by_cases h1 : (optLE tMaxX tMaxY && optLE tMaxX tMaxZ) = true
    · rw [if_pos h1]
      cases tMaxX with
      | none => rfl
      | some t => simp [hneg]
    · rw [if_neg h1]
      by_cases h2 : optLE tMaxY tMaxZ = true
      · rw [if_pos h2]
        cases tMaxY with
        | none => rfl
        | some t => simp [hneg]
      · rw [if_neg h2]
        cases tMaxZ with
        | none => rfl
        | some t => simp [hneg]

/-- A negative `maxDistance` can never admit a hit: the first crossing
already exceeds it (spec section 4.6 step 6). -/
theorem raycast_neg_maxDistance (w : World) (origin direction : Vec3q)
    (maxDistance : ℚ) (ignore : Nat → Bool) (hneg : maxDistance < 0) :
    w.raycast origin direction maxDistance ignore = none := by
  unfold World.raycast
  by_cases h0 : direction.x = 0 ∧ direction.y = 0 ∧ direction.z = 0
  · rw [if_pos h0]
  · rw [if_neg h0]
    exact raycastLoop_neg_maxDistance w _ _ _ _ _ _ _ _ _ hneg _ _ _ _ _ _ _

end Core

/-! ### Claim theorems -/

namespace Claims

open Core

/-- C1: for every well-formed world with the column of `(x, z)` loaded and
`y` within `[minY, minY + 16 * sectionCount)`, `setBlockStateId(x,y,z,v)`
succeeds and a subsequent `getBlockStateId(x,y,z)` returns `v`, including
when the write materializes a previously absent section with `v ≠ 0` (the
absent-section no-op for `v = 0` also reads back 0).  State ids are bounded
by the direct palette width of the profile (15 bits). -/
theorem set_then_get_returns_v (w : World) (x y z : Int) (v : Nat)
    (hwf : worldWF w = true)
    (hcol : lookupColumn w.columns (x / 16) (z / 16) ≠ none)
    (hy : yInRange y) (hv : v < 2 ^ blockCfg.directBits) :
    ∃ w', w.setBlockStateId x y z v = Except.ok w'
      ∧ w'.getBlockStateId x y z = v :=
  setBlockStateId_roundtrip w x y z v hwf hcol hy hv

/-- C1 witness: the write at (5, 65, 5) with value 7 materializes an absent
section of the loaded all-air column and reads back 7. -/
theorem set_then_get_returns_v_witness :
    worldWF wAir = true
    ∧ lookupColumn wAir.columns ((5 : Int) / 16) ((5 : Int) / 16) ≠ none
    ∧ yInRange 65 ∧ (7 : Nat) < 2 ^ blockCfg.directBits
    ∧ ∃ w', wAir.setBlockStateId 5 65 5 7 = Except.ok w'
        ∧ w'.getBlockStateId 5 65 5 = 7 :=
  ⟨by decide, by decide, by decide, by decide,
    set_then_get_returns_v wAir 5 65 5 7 (by decide) (by decide) (by decide) (by decide)⟩

/-- C2 counterexample: in the loaded all-air column the section of
(5, 65, 5) is absent, yet the block-light field (`light`) of `getBlock` is
15, not 0 — the declaration file documents it as a placeholder that is
currently always 15, contradicting the claimed section 4.2 default of 0. -/
theorem getBlock_blocklight_counterexample :
    lookupColumn wAir.columns ((5 : Int) / 16) ((5 : Int) / 16) = some columnAt00
    ∧ columnAt00.sections.getD (((65 : Int) - minY).toNat / 16) none = none
    ∧ yInRange 65
    ∧ (wAir.getBlock 5 65 5).map BlockInfo.light ≠ some 0
    ∧ (wAir.getBlock 5 65 5).map BlockInfo.light = some 15 := by decide

/-- C2 (amended): for every coordinate of a loaded column whose section is
absent, `getBlock` returns a record with `stateId = 0`, `biomeId = 0`,
`skyLight = 15`, and the block-light field `light = 15` (the declaration
file's placeholder value, not the spec's stated default 0). -/
theorem getBlock_absent_section_defaults (w : World) (x y z : Int) (col : Column)
    (hl : lookupColumn w.columns (x / 16) (z / 16) = some col)
    (hy : yInRange y)
    (hs : col.sections.getD ((y - minY).toNat / 16) none = none) :
    w.getBlock x y z = some { stateId := 0, light := 15, skyLight := 15, biomeId := 0 } :=
  getBlock_absent_section w x y z col hl hy hs

/-- C2 witness: concrete instance at (5, 65, 5) of the loaded air column. -/
theorem getBlock_absent_section_defaults_witness :
    lookupColumn wAir.columns ((5 : Int) / 16) ((5 : Int) / 16) = some columnAt00
    ∧ yInRange 65
    ∧ columnAt00.sections.getD (((65 : Int) - minY).toNat / 16) none = none
    ∧ wAir.getBlock 5 65 5 = some { stateId := 0, light := 15, skyLight := 15, biomeId := 0 } :=
  ⟨by decide, by decide, by decide,
    getBlock_absent_section_defaults wAir 5 65 5 columnAt00 (by decide) (by decide) (by decide)⟩

/-- C3: whenever `loadColumn` reports a parse error (malformed buffer: the
model rejects truncated input, bad palettes, unsupported bpe, and wrong
data lengths), the world is unchanged — the prior column at `(cx, cz)`, if
any, is preserved and still serves every read. -/
theorem loadColumn_parse_error_atomic (w : World) (cx cz : Int) (bs : Bytes)
    (e : ParseError) (he : (w.loadColumn cx cz bs).2 = some e) :
    (w.loadColumn cx cz bs).1 = w
    ∧ lookupColumn (w.loadColumn cx cz bs).1.columns cx cz = lookupColumn w.columns cx cz
    ∧ ∀ x y z : Int, (w.loadColumn cx cz bs).1.getBlock x y z = w.getBlock x y z :=
  loadColumn_error_preserves w cx cz bs e he

/-- C3 witness: reloading chunk (0, 0) of the loaded air world from a
truncated (empty) buffer fails and preserves the prior column. -/
theorem loadColumn_parse_error_atomic_witness :
    (wAir.loadColumn 0 0 []).2 = some ParseError.truncated
    ∧ ((wAir.loadColumn 0 0 []).1 = wAir
      ∧ lookupColumn (wAir.loadColumn 0 0 []).1.columns 0 0 = lookupColumn wAir.columns 0 0
      ∧ ∀ x y z : Int, (wAir.loadColumn 0 0 []).1.getBlock x y z = wAir.getBlock x y z) :=
  ⟨by decide, loadColumn_parse_error_atomic wAir 0 0 [] ParseError.truncated (by decide)⟩

/-- C4: `getBlock(x,y,z)` is nil exactly when the column containing
`(x, z)` is not loaded — in particular right after `unloadColumn` of that
column — and, being a total function (as are all reads of the model), it
never raises an error. -/
theorem getBlock_nil_iff_column_not_loaded (w : World) (x y z : Int) :
    (w.getBlock x y z = none ↔ lookupColumn w.columns (x / 16) (z / 16) = none)
    ∧ (w.unloadColumn (x / 16) (z / 16)).getBlock x y z = none :=
  getBlock_none_iff_not_loaded w x y z

/-- C4 witness: concrete instance at (5, 65, 5). -/
theorem getBlock_nil_iff_column_not_loaded_witness :
    (wAir.getBlock 5 65 5 = none
      ↔ lookupColumn wAir.columns ((5 : Int) / 16) ((5 : Int) / 16) = none)
    ∧ (wAir.unloadColumn ((5 : Int) / 16) ((5 : Int) / 16)).getBlock 5 65 5 = none :=
  getBlock_nil_iff_column_not_loaded wAir 5 65 5

/-- C5: `exportSectionStates(cx, cz, sy)` returns exactly 16384 bytes that
encode 4096 little-endian u32 state ids in index order
`((ly*16)+lz)*16 + lx` (each 4-byte group at that index equals the state
id at `absoluteY = minY + sy*16 + ly`), and returns nil when the chunk or
section is not loaded or `sy` is outside `[0, sectionCount)`. -/
theorem exportSectionStates_bytes (w : World) (cx cz sy : Int) :
    (∀ bytes, w.exportSectionStates cx cz sy = some bytes →
      bytes.length = 16384
      ∧ ∀ lx ly lz : Nat, lx < 16 → ly < 16 → lz < 16 →
          (bytes.drop (4 * blockIndex lx ly lz)).take 4
            = le32 (w.getBlockStateId (16 * cx + (lx : Int))
                (minY + 16 * sy + (ly : Int)) (16 * cz + (lz : Int))))
    ∧ (lookupColumn w.columns cx cz = none → w.exportSectionStates cx cz sy = none)
    ∧ ((sy < 0 ∨ (sectionCount : Int) ≤ sy) → w.exportSectionStates cx cz sy = none)
    ∧ (∀ col, lookupColumn w.columns cx cz = some col →
        col.sections.getD sy.toNat none = none → w.exportSectionStates cx cz sy = none) :=
  exportSectionStates_spec w cx cz sy

theorem option_eq_some_getD {α : Type} (o : Option α) (d : α)
    (h : o.isSome = true) : o = some (o.getD d) := by
  cases o with
  | none => exact Bool.noConfusion h
  | some a => rfl

/-- C5 witness: the section written in scenario S5 exports 16384 bytes, and
a negative section index yields nil. -/
theorem exportSectionStates_bytes_witness :
    exportedBytes.length = 16384
    ∧ wAir.exportSectionStates 0 0 (-1) = none :=
  ⟨((exportSectionStates_bytes wRay 0 0 8).1 exportedBytes
      (option_eq_some_getD _ [] (by decide))).1,
    (exportSectionStates_bytes wAir 0 0 (-1)).2.2.1 (Or.inl (by decide))⟩

unseal Rat.add Rat.mul Rat.inv Rat.sub in
/-- C6: in the otherwise-air column with `setBlockStateId(3, 65, 0, 1)`, a
raycast from origin (0.5, 65.5, 0.5) with direction (1, 0, 0) and
maxDistance 10 hits position (3, 65, 0) with face 4 — the west (-X) face
per the face-code table of the source — and intersect point exactly
(3.0, 65.5, 0.5). -/
theorem raycast_scenario_s5 :
    wRay.raycast ⟨1/2, 131/2, 1/2⟩ ⟨1, 0, 0⟩ 10 (fun _ => false)
      = some { position := (3, 65, 0), face := 4,
               intersectPoint := { x := 3, y := 131/2, z := 1/2 }, stateId := 1 }
    ∧ Callers.blockFaceNames 4 = some ("west (-X)") :=
  ⟨by decide, rfl⟩

unseal Rat.add Rat.mul Rat.inv Rat.sub in
/-- C7 counterexample: at a concrete origin in the loaded world, a raycast
with a zero-length direction and one with a negative maxDistance both
return a nil miss; the modelled raycast (spec section 4.6 step 1: a
zero-length direction returns nil) has no error outcome at all, so it
cannot fail with `InvalidArgument` as the claim states. -/
theorem raycast_invalid_args_nil_counterexample :
    wRay.raycast ⟨1/2, 131/2, 1/2⟩ ⟨0, 0, 0⟩ 10 (fun _ => false) = none
    ∧ wRay.raycast ⟨1/2, 131/2, 1/2⟩ ⟨1, 0, 0⟩ (-1) (fun _ => false) = none := by
  constructor
  · decide
  · decide

/-- C7 (amended): for every origin, a raycast with a zero-length direction
vector returns nil (spec section 4.6 step 1), and one with a negative
maxDistance returns nil (its first crossing already exceeds the range) —
neither raises an `InvalidArgument` error. -/
theorem raycast_invalid_args_return_nil :
    (∀ (w : World) (origin : Vec3q) (maxDistance : ℚ) (ignore : Nat → Bool),
      w.raycast origin ⟨0, 0, 0⟩ maxDistance ignore = none)
    ∧ (∀ (w : World) (origin direction : Vec3q) (maxDistance : ℚ)
        (ignore : Nat → Bool), maxDistance < 0 →
        w.raycast origin direction maxDistance ignore = none) :=
  ⟨fun w origin maxDistance ignore => raycast_zero_direction w origin maxDistance ignore,
   fun w origin direction maxDistance ignore hneg =>
     raycast_neg_maxDistance w origin direction maxDistance ignore hneg⟩

unseal Rat.add Rat.mul Rat.inv Rat.sub in
/-- C7 (amended) witness: concrete instances of both argument families. -/
theorem raycast_invalid_args_return_nil_witness :
    wAir.raycast ⟨0, 0, 0⟩ ⟨0, 0, 0⟩ 5 (fun _ => false) = none
    ∧ ((-1 : ℚ) < 0
      ∧ wAir.raycast ⟨0, 0, 0⟩ ⟨1, 0, 0⟩ (-1) (fun _ => false) = none) :=
  ⟨raycast_invalid_args_return_nil.1 wAir ⟨0, 0, 0⟩ 5 (fun _ => false),
   by decide,
   raycast_invalid_args_return_nil.2 wAir ⟨0, 0, 0⟩ ⟨1, 0, 0⟩ (-1) (fun _ => false) (by decide)⟩

/-- C8: the `multi_block_change` handlers compute different absolute world
Y values from identical packet inputs — part_000 uses
`worldY = sectionY*16 + relativeY`, protocol.js adds a -4 section offset
(`worldY = (sectionY-4)*16 + relativeY`), raycast-test.js adds -64 blocks
(`worldY = sectionY*16 - 64 + relativeY`) — so at least two caller
embeddings are not equivalent (shown at sectionY = 0, record = 0). -/
theorem multi_block_change_y_divergence :
    (∀ (chunkX chunkZ sectionY : Int) (record : Nat),
      (Callers.part000_decodeRecord chunkX chunkZ sectionY record).worldY
        = sectionY * 16 + ((record &&& 15 : Nat) : Int))
    ∧ (∀ (chunkX chunkZ sectionY : Int) (record : Nat),
      (Callers.protocolJs_decodeRecord chunkX chunkZ sectionY record).worldY
        = (sectionY - 4) * 16 + ((record &&& 15 : Nat) : Int))
    ∧ (∀ (chunkX chunkZ sectionY : Int) (record : Nat),
      (Callers.raycastTest_decodeRecord chunkX chunkZ sectionY record).worldY
        = sectionY * 16 - 64 + ((record &&& 15 : Nat) : Int))
    ∧ (Callers.part000_decodeRecord 0 0 0 0).worldY
        ≠ (Callers.protocolJs_decodeRecord 0 0 0 0).worldY := by
  refine ⟨?_, ?_, ?_, by decide⟩
  · intro cx cz sy r
    simp only [Callers.part000_decodeRecord]
    rw [Callers.and_fff_and_f]
  · intro cx cz sy r
    simp only [Callers.protocolJs_decodeRecord]
    rw [Callers.and_fff_and_f]
    ring
  · intro cx cz sy r
    simp only [Callers.raycastTest_decodeRecord]
    rw [Callers.and_fff_and_f]
    ring

/-- C9: every `multi_block_change` handler decodes a record `r`
identically — stateId `r >>> 12`, relativeY `r &&& 15`, z
`(r >>> 4) &&& 15`, x `(r >>> 8) &&& 15` — and writes at
`worldX = chunkX*16 + x` and `worldZ = chunkZ*16 + z`; the handlers differ
only in the section offset added to relativeY in worldY. -/
theorem multi_block_change_decode_uniform
    (chunkX chunkZ sectionY : Int) (record : Nat) :
    Callers.part000_decodeRecord chunkX chunkZ sectionY record
      = { worldX := chunkX * 16 + ((record >>> 8 &&& 15 : Nat) : Int),
          worldY := sectionY * 16 + ((record &&& 15 : Nat) : Int),
          worldZ := chunkZ * 16 + ((record >>> 4 &&& 15 : Nat) : Int),
          stateId := record >>> 12 }
    ∧ Callers.mitm_decodeRecord chunkX chunkZ sectionY record
      = Callers.part000_decodeRecord chunkX chunkZ sectionY record
    ∧ Callers.protocolJs_decodeRecord chunkX chunkZ sectionY record
      = { worldX := chunkX * 16 + ((record >>> 8 &&& 15 : Nat) : Int),
          worldY := (-4 + sectionY) * 16 + ((record &&& 15 : Nat) : Int),
          worldZ := chunkZ * 16 + ((record >>> 4 &&& 15 : Nat) : Int),
          stateId := record >>> 12 }
    ∧ Callers.raycastTest_decodeRecord chunkX chunkZ sectionY record
      = { worldX := chunkX * 16 + ((record >>> 8 &&& 15 : Nat) : Int),
          worldY := sectionY * 16 + (-64) + ((record &&& 15 : Nat) : Int),
          worldZ := chunkZ * 16 + ((record >>> 4 &&& 15 : Nat) : Int),
          stateId := record >>> 12 }
    ∧ Callers.proxyJs_decodeRecord chunkX chunkZ sectionY record
      = { worldX := chunkX * 16 + ((record >>> 8 &&& 15 : Nat) : Int),
          worldY := if sectionY ≠ -1
            then sectionY * 16 + ((record &&& 15 : Nat) : Int)
            else ((record &&& 15 : Nat) : Int),
          worldZ := chunkZ * 16 + ((record >>> 4 &&& 15 : Nat) : Int),
          stateId := record >>> 12 } := by
  refine ⟨?_, rfl, ?_, ?_, ?_⟩ <;>
    simp [Callers.part000_decodeRecord, Callers.protocolJs_decodeRecord,
      Callers.raycastTest_decodeRecord, Callers.proxyJs_decodeRecord,
      Callers.BlockUpdate.mk.injEq, Callers.and_fff_and_f,
      Callers.and_fff_shift4_and_f, Callers.and_fff_shift8_and_f]

/-- C10: every client connecting to the proxy is registered with a freshly
constructed empty `World`, and handling a packet from one client's target
connection leaves the block states observed through every other client's
`World` unchanged. -/
theorem proxy_per_client_world_isolation :
    (∀ (p : ProxyModel.ProxyState) (cid : Nat),
      ProxyModel.lookupClient (ProxyModel.handleNewClientConnection p cid).clients cid
        = some { world := Core.World.empty })
    ∧ (∀ (p : ProxyModel.ProxyState) (cid cid' : Nat)
        (pkt : ProxyModel.WorldPacket) (x y z : Int), cid' ≠ cid →
        (ProxyModel.lookupClient (ProxyModel.handleClientPacket p cid pkt).clients cid').map
            (fun cs => cs.world.getBlockStateId x y z)
          = (ProxyModel.lookupClient p.clients cid').map
            (fun cs => cs.world.getBlockStateId x y z)) := by
  constructor
  · intro p cid
    simp [ProxyModel.handleNewClientConnection, ProxyModel.lookupClient]
  · intro p cid cid' pkt x y z h
    simp only [ProxyModel.handleClientPacket]
    rw [ProxyModel.lookupClient_updateClient_other cid cid' pkt h p.clients]

/-- C10 witness: with two connected clients, a block-change packet handled
for client 1 leaves client 2's world reads unchanged. -/
theorem proxy_per_client_world_isolation_witness :
    (2 : Nat) ≠ 1
    ∧ (ProxyModel.lookupClient
        (ProxyModel.handleClientPacket
          (ProxyModel.handleNewClientConnection
            (ProxyModel.handleNewClientConnection { clients := [] } 1) 2)
          1 (ProxyModel.WorldPacket.blockChange 0 70 0 5)).clients 2).map
        (fun cs => cs.world.getBlockStateId 0 70 0)
      = (ProxyModel.lookupClient
          (ProxyModel.handleNewClientConnection
            (ProxyModel.handleNewClientConnection { clients := [] } 1) 2).clients 2).map
        (fun cs => cs.world.getBlockStateId 0 70 0) :=
  ⟨by decide,
    proxy_per_client_world_isolation.2
      (ProxyModel.handleNewClientConnection
        (ProxyModel.handleNewClientConnection { clients := [] } 1) 2)
      1 2 (ProxyModel.WorldPacket.blockChange 0 70 0 5) 0 70 0 (by decide)⟩

end Claims
